import Mathlib

/-!
Verification of the Name Registry Query & Export Subsystem
(`src/rpc/names.cpp` of the repository).

The definitions below are a shallow embedding of the read-path RPC logic:
`addExpirationInfo`, the options handling of `name_scan` (including the
`RPCTypeCheckObj` schema check and `EncodingFromOptionsJson`), the
scan/pagination loop of `name_scan`, and the streaming export loop of
`name_export` together with `pushTimestampOfDataTx`.

Modelling conventions:
  * `valtype` (a byte vector) becomes `List Nat`.
  * Machine `int` becomes `Int` (all values involved are far from 2^31, and
    the source performs no intentional wrap-around on them).
  * External collaborators (the regex engine, the UTF-8 name encoder/decoder,
    the transaction/timestamp lookup, the UniValue serializers) are passed in
    as explicit function parameters; C++ exceptions become `Except`/`Option`
    results, with the distinct exception types kept apart exactly where the
    source distinguishes them in `catch` clauses.
  * `std::ofstream` becomes `OutFile`: a destination that either opened
    successfully (writes append) or not (writes are silently ignored and no
    exception is raised — the default `ofstream` behaviour, since the source
    never enables stream exceptions nor inspects the stream state).
-/

/-- Byte string, the model of `valtype = std::vector<unsigned char>`. -/
abbrev Name := List Nat

/-- Model of `CNameData`: the fields of a committed name record that the
read path accesses (`getValue`, `getUpdateOutpoint`, `getAddress`,
`getHeight`). -/
structure CNameData where
  value : Name
  updOutpointHash : Nat
  updOutpointN : Nat
  addr : Name
  height : Int
deriving DecidableEq

/-- Expiration fields pushed by `addExpirationInfo` onto the result object
(`height`, `expires_in`, `expired`). -/
structure ExpirationInfo where
  height : Int
  expiresIn : Int
  expired : Bool
deriving DecidableEq

/-- Model of `addExpirationInfo` (names.cpp lines 110-121).  `curHeight` is
`::ChainActive().Height()` at call time and `expireDepth` is
`NameExpirationDepth(curHeight)`; both come from the chain service, not from
the record, and are therefore explicit parameters here. -/
def addExpirationInfo (height : Int) (curHeight : Int) (expireDepth : Int) : ExpirationInfo :=
  let expireHeight : Int := height + expireDepth
  let expiresIn : Int := expireHeight - curHeight
  let expired : Bool := decide (expiresIn ≤ 0)
  { height := height, expiresIn := expiresIn, expired := expired }

/-- Claim C1: for every name record with last-update height `h`, attaching
expiration info computes `expireHeight = h + expirationDepth(currentHeight)`,
reports `expires_in = expireHeight - currentHeight` and
`expired = (expires_in ≤ 0)`, with the chain height current at call time as
an input; at height 100, current height 105 and expirationDepth 50 the result
is `expired = false`, `expires_in = 45`. -/
theorem C1_expiration_info (h curHeight expireDepth : Int) :
    (addExpirationInfo h curHeight expireDepth).expiresIn
        = (h + expireDepth) - curHeight
    ∧ ((addExpirationInfo h curHeight expireDepth).expired = true
        ↔ (h + expireDepth) - curHeight ≤ 0)
    ∧ (addExpirationInfo h curHeight expireDepth).height = h
    ∧ addExpirationInfo 100 105 50
        = { height := 100, expiresIn := 45, expired := false } := by
  refine ⟨rfl, ?_, rfl, by decide⟩
  simp [addExpirationInfo]

/-! ## Options bag and schema checking -/

/-- The three textual name/value encodings (`NameEncoding` in
`names/encoding.h`). -/
inductive NameEncoding where
  | ascii
  | utf8
  | hex
deriving DecidableEq

/-- Modelled from the spec: `EncodingFromString` lives in
`names/encoding.cpp`, which is not part of the sources here.  Per the spec,
the recognized encodings are exactly "ascii", "utf8" and "hex"; any other
string is invalid (`std::invalid_argument` in C++, `none` here). -/
def EncodingFromString (s : String) : Option NameEncoding :=
  if s = "ascii" then some NameEncoding.ascii
  else if s = "utf8" then some NameEncoding.utf8
  else if s = "hex" then some NameEncoding.hex
  else none

/-- Model of a primitive `UniValue` value.  The recognized option values are
all primitive (strings, numbers, booleans), so nested objects/arrays are not
needed for the options bags handled here. -/
inductive UniValue where
  | vstr (s : String)
  | vnum (n : Int)
  | vbool (b : Bool)
deriving DecidableEq

/-- The `UniValue` type tags relevant to option values (`UniValue::VSTR`,
`VNUM`, `VBOOL`). -/
inductive UVType where
  | tstr
  | tnum
  | tbool
deriving DecidableEq

/-- Type tag of a value, the model of `UniValue::type()`. -/
def UniValue.typeOf : UniValue → UVType
  | UniValue.vstr _ => UVType.tstr
  | UniValue.vnum _ => UVType.tnum
  | UniValue.vbool _ => UVType.tbool

/-- An options object: association list of keys to primitive values. -/
abbrev Bag := List (String × UniValue)

/-- Model of `find_value`/`operator[]`/`exists` on a `UniValue` object:
first binding of the key, `none` when the key is absent. -/
def findValue (o : Bag) (key : String) : Option UniValue :=
  match o with
  | [] => none
  | (k, v) :: rest => if k = key then some v else findValue rest key

/-- The error taxonomy of the RPC read path, as far as the claims need to
distinguish outcomes.  `invalidOptionType` and `missingKey` are the
`RPC_TYPE_ERROR` results of the schema check; `unknownOption` is the strict
mode rejection; `invalidParameter` is `RPC_INVALID_PARAMETER`;
`nameInvalidEncoding` is `RPC_NAME_INVALID_ENCODING`; `regexError` is the
`boost::xpressive::regex_error` escaping from `sregex::compile`;
`invalidAddressOrKey` is `RPC_INVALID_ADDRESS_OR_KEY` thrown by
`pushTimestampOfDataTx`. -/
inductive RpcError where
  | invalidOptionType (key : String)
  | missingKey (key : String)
  | unknownOption (key : String)
  | invalidParameter (msg : String)
  | nameInvalidEncoding
  | regexError
  | invalidAddressOrKey (msg : String)
deriving DecidableEq

/-- Checks each expected key of the schema in order, the first loop of
`RPCTypeCheckObj`: a missing key is only an error when nulls are not allowed,
a present key of the wrong type is an `invalidOptionType` error. -/
def checkExpected (o : Bag) (fAllowNull : Bool) :
    List (String × UVType) → Except RpcError Unit
  | [] => Except.ok ()
  | (k, ty) :: rest =>
    match findValue o k with
    | none =>
      if fAllowNull then checkExpected o fAllowNull rest
      else Except.error (RpcError.missingKey k)
    | some v =>
      if v.typeOf = ty then checkExpected o fAllowNull rest
      else Except.error (RpcError.invalidOptionType k)

/-- The strict-mode loop of `RPCTypeCheckObj`: any key of the object outside
the expected set is rejected. -/
def checkUnknown (expectedKeys : List String) : Bag → Except RpcError Unit
  | [] => Except.ok ()
  | (k, _) :: rest =>
    if expectedKeys.contains k then checkUnknown expectedKeys rest
    else Except.error (RpcError.unknownOption k)

/-- Modelled from the spec: `RPCTypeCheckObj` lives in `rpc/util.cpp`, which
is not part of the sources here.  Per the spec's options-parser contract it
checks a bag against a declared set of recognized keys with expected types:
wrong-typed recognized keys are rejected (`InvalidOptionType`), missing keys
are tolerated when `fAllowNull` is set, and unknown keys are rejected
(`UnknownOption`) exactly when the strict flag `fStrict` is set.  All call
sites inside `names.cpp` pass `fAllowNull = true, fStrict = false`. -/
def RPCTypeCheckObj (o : Bag) (typesExpected : List (String × UVType))
    (fAllowNull fStrict : Bool) : Except RpcError Unit := do
  checkExpected o fAllowNull typesExpected
  if fStrict then checkUnknown (typesExpected.map Prod.fst) o
  else Except.ok ()

/-- Model of `EncodingFromOptionsJson` (names.cpp lines 36-54): type-checks
the field as a string, then converts it; an unrecognized encoding string is
only logged and the configured default is used. -/
def EncodingFromOptionsJson (options : Bag) (field : String)
    (defaultValue : NameEncoding) : Except RpcError NameEncoding := do
  RPCTypeCheckObj options [(field, UVType.tstr)] true false
  match findValue options field with
  | some (UniValue.vstr s) =>
    match EncodingFromString s with
    | some e => Except.ok e
    | none => Except.ok defaultValue
  | _ => Except.ok defaultValue

/-- Claim C9: an options bag that carries `nameEncoding`/`valueEncoding` as a
string outside {"ascii","utf8","hex"} does not fail the request; the
operation proceeds with the configured default encoding for that field. -/
theorem C9_invalid_encoding_falls_back (options : Bag) (field : String)
    (defaultValue : NameEncoding) (s : String)
    (hfound : findValue options field = some (UniValue.vstr s))
    (hbad : EncodingFromString s = none) :
    EncodingFromOptionsJson options field defaultValue
      = Except.ok defaultValue := by
  simp only [EncodingFromOptionsJson, RPCTypeCheckObj, checkExpected, hfound,
    hbad, UniValue.typeOf, if_true, if_pos rfl]
  rfl

/-- Concrete instance of C9: encoding string "latin1" is not recognized, and
the request proceeds with the default. -/
theorem C9_invalid_encoding_falls_back_witness :
    findValue [("nameEncoding", UniValue.vstr "latin1")] "nameEncoding"
        = some (UniValue.vstr "latin1")
    ∧ EncodingFromString "latin1" = none
    ∧ EncodingFromOptionsJson [("nameEncoding", UniValue.vstr "latin1")]
        "nameEncoding" NameEncoding.ascii = Except.ok NameEncoding.ascii :=
  ⟨by decide, by decide,
    C9_invalid_encoding_falls_back _ _ _ "latin1" (by decide) (by decide)⟩

/-! ## Name decoding and the `name_scan` options parser -/

/-- Model of `DecodeNameFromRPCOrThrow` (names.cpp lines 168-188): look up
the per-call encoding from the options (falling back to the configured
default), then decode with it; a string invalid for the encoding throws
`RPC_NAME_INVALID_ENCODING`.  `decodeName` is the external
`DecodeName` of the Encoding Layer (`names/encoding.cpp`), passed in as a
fallible pure function. -/
def DecodeNameFromRPCOrThrow (decodeName : NameEncoding → String → Option Name)
    (defNameEnc : NameEncoding) (val : String) (opt : Bag) :
    Except RpcError Name := do
  let enc ← EncodingFromOptionsJson opt "nameEncoding" defNameEnc
  match decodeName enc val with
  | some n => Except.ok n
  | none => Except.error RpcError.nameInvalidEncoding

/-- The validated scan parameters produced by the options-processing section
of `name_scan` (names.cpp lines 556-589).  `maxConf = -1` is the in-code
sentinel for "no maxConf given"; `rxp` is the compiled regex
(as its match predicate over the UTF-8 rendering), `none` when no `regexp`
option was given. -/
structure ScanParams where
  minConf : Int
  maxConf : Int
  pref : Name
  rxp : Option (String → Bool)

/-- Model of the options-processing section of `name_scan` (names.cpp lines
556-589): the four-key schema check (non-strict, nulls allowed), then
`minConf` (default 1, must be ≥ 1), `maxConf` (sentinel -1, must be ≥ 0 when
given), `prefix` (decoded via the Encoding Layer) and `regexp` (compiled by
the external engine `compile`; a failed compile escapes as a regex error).
The fallthrough arms for a present key of the wrong type are unreachable:
the schema check above has already rejected such bags. -/
def parseScanOptions (compile : String → Option (String → Bool))
    (decodeName : NameEncoding → String → Option Name)
    (defNameEnc : NameEncoding) (options : Bag) :
    Except RpcError ScanParams := do
  RPCTypeCheckObj options
    [("minConf", UVType.tnum), ("maxConf", UVType.tnum),
     ("prefix", UVType.tstr), ("regexp", UVType.tstr)] true false
  let minConf : Int :=
    match findValue options "minConf" with
    | some (UniValue.vnum n) => n
    | _ => 1
  if minConf < 1 then
    Except.error (RpcError.invalidParameter "minConf must be >= 1")
  else do
  let maxConf : Int ←
    match findValue options "maxConf" with
    | some (UniValue.vnum n) =>
      if n < 0 then
        Except.error (RpcError.invalidParameter "maxConf must not be negative")
      else Except.ok n
    | _ => Except.ok (-1)
  let pref : Name ←
    match findValue options "prefix" with
    | some (UniValue.vstr s) =>
      DecodeNameFromRPCOrThrow decodeName defNameEnc s options
    | _ => Except.ok []
  let rxp : Option (String → Bool) ←
    match findValue options "regexp" with
    | some (UniValue.vstr s) =>
      match compile s with
      | some r => Except.ok (some r)
      | none => Except.error RpcError.regexError
    | _ => Except.ok none
  Except.ok { minConf := minConf, maxConf := maxConf, pref := pref, rxp := rxp }

/-- The option keys that the scan options processing ever looks up:
its four recognized keys plus `nameEncoding`, which the Encoding Layer
consults while decoding the `prefix` option. -/
def scanOptionKeys : List String :=
  ["minConf", "maxConf", "prefix", "regexp", "nameEncoding"]

/-- A concrete regex engine instance for closed evaluations: every pattern
compiles, every string matches. -/
def compTrue : String → Option (String → Bool) := fun _ => some (fun _ => true)

/-- A concrete name decoder instance for closed evaluations: everything
decodes to the empty byte string. -/
def decEmpty : NameEncoding → String → Option Name := fun _ _ => some []

/-- Claim C3, counterexample: an options bag holding only the unrecognized
key "bogus" is not rejected — the scan options parse succeeds with all
defaults, so no `UnknownOption` error is ever produced.  (All schema checks
in names.cpp run `RPCTypeCheckObj` with `fStrict = false`.) -/
theorem C3_counterexample :
    parseScanOptions compTrue decEmpty NameEncoding.ascii
        [("bogus", UniValue.vnum 7)]
      = Except.ok { minConf := 1, maxConf := -1, pref := [], rxp := none }
    ∧ parseScanOptions compTrue decEmpty NameEncoding.ascii
        [("bogus", UniValue.vnum 7)]
      ≠ Except.error (RpcError.unknownOption "bogus") := by
  have hok : parseScanOptions compTrue decEmpty NameEncoding.ascii
      [("bogus", UniValue.vnum 7)]
      = Except.ok { minConf := 1, maxConf := -1, pref := [], rxp := none } := rfl
  refine ⟨hok, ?_⟩
  intro h
  rw [hok] at h
  exact Except.noConfusion h

/-- Claim C3, amended: unknown keys in the options bag are silently ignored
(the parse result depends only on the values at the keys the parser ever
looks up), a recognized key present with a value of the wrong type is
rejected with `InvalidOptionType`, and missing optional keys take their
documented defaults (`minConf = 1`, no `maxConf`, empty prefix, no regexp). -/
theorem C3_amended :
    (∀ (compile : String → Option (String → Bool))
        (decodeName : NameEncoding → String → Option Name)
        (defEnc : NameEncoding) (b1 b2 : Bag),
        (∀ k ∈ scanOptionKeys, findValue b1 k = findValue b2 k) →
        parseScanOptions compile decodeName defEnc b1
          = parseScanOptions compile decodeName defEnc b2)
    ∧ (∀ (compile : String → Option (String → Bool))
        (decodeName : NameEncoding → String → Option Name)
        (defEnc : NameEncoding) (b : Bag) (v : UniValue),
        findValue b "minConf" = some v → v.typeOf ≠ UVType.tnum →
        parseScanOptions compile decodeName defEnc b
          = Except.error (RpcError.invalidOptionType "minConf"))
    ∧ (∀ (compile : String → Option (String → Bool))
        (decodeName : NameEncoding → String → Option Name)
        (defEnc : NameEncoding),
        parseScanOptions compile decodeName defEnc []
          = Except.ok { minConf := 1, maxConf := -1, pref := [], rxp := none }) := by
  refine ⟨?_, ?_, ?_⟩
  · intro compile decodeName defEnc b1 b2 h
    have h1 := h "minConf" (by simp [scanOptionKeys])
    have h2 := h "maxConf" (by simp [scanOptionKeys])
    have h3 := h "prefix" (by simp [scanOptionKeys])
    have h4 := h "regexp" (by simp [scanOptionKeys])
    have h5 := h "nameEncoding" (by simp [scanOptionKeys])
    simp only [parseScanOptions, RPCTypeCheckObj, checkExpected,
      DecodeNameFromRPCOrThrow, EncodingFromOptionsJson, h1, h2, h3, h4, h5]
    rfl
  · intro compile decodeName defEnc b v hfind hty
    simp only [parseScanOptions, RPCTypeCheckObj, checkExpected, hfind,
      if_neg hty]
    rfl
  · intro compile decodeName defEnc
    rfl

/-- Concrete instances for C3, amended: a bag with only the unknown key
"bogus" parses like the empty bag; a bag with a string-typed `minConf` is
rejected with `InvalidOptionType`; the empty bag yields the defaults. -/
theorem C3_amended_witness :
    parseScanOptions compTrue decEmpty NameEncoding.ascii
        [("bogus", UniValue.vnum 7)]
      = parseScanOptions compTrue decEmpty NameEncoding.ascii []
    ∧ parseScanOptions compTrue decEmpty NameEncoding.ascii
        [("minConf", UniValue.vstr "x")]
      = Except.error (RpcError.invalidOptionType "minConf")
    ∧ parseScanOptions compTrue decEmpty NameEncoding.ascii []
      = Except.ok { minConf := 1, maxConf := -1, pref := [], rxp := none } :=
  ⟨C3_amended.1 compTrue decEmpty NameEncoding.ascii _ _ (by decide),
   C3_amended.2.1 compTrue decEmpty NameEncoding.ascii _
     (UniValue.vstr "x") (by decide) (by decide),
   C3_amended.2.2 compTrue decEmpty NameEncoding.ascii⟩

/-! ## The scan/pagination engine of `name_scan` -/

/-- Strict lexicographic order on byte strings: the order in which the
external `CNameIterator` walks the name index, and against which `seek`
positions it (first entry ≥ the sought key). -/
def nameLt : Name → Name → Bool
  | [], [] => false
  | [], _ :: _ => true
  | _ :: _, [] => false
  | a :: as, b :: bs => a < b || (a == b && nameLt as bs)

/-- Model of the byte-prefix test of the scan step (names.cpp lines 615-618):
`name.size() < prefix.size()` or a mismatch on the leading bytes skips the
entry.  `hasPref p n` is true when `p` is a prefix of `n`. -/
def hasPref : Name → Name → Bool
  | [], _ => true
  | _ :: _, [] => false
  | p :: ps, n :: ns => p == n && hasPref ps ns

/-- One filter step of `name_scan`'s loop body (names.cpp lines 609-629):
height window, then byte-prefix, then regex over the UTF-8 rendering (an
unrenderable name is a silent non-match).  `maxConf = -1` encodes an absent
`maxConf` exactly as in the source (`minHeight` stays -1 and the lower bound
is not applied). -/
def scanPass (curHeight minConf maxConf : Int) (pre : Name)
    (rxp : Option (String → Bool)) (encodeUTF8 : Name → Option String)
    (e : Name × CNameData) : Bool :=
  let maxHeight : Int := curHeight - minConf + 1
  let minHeight : Int := if 0 ≤ maxConf then curHeight - maxConf + 1 else -1
  if maxHeight < e.2.height then false
  else if 0 ≤ minHeight ∧ e.2.height < minHeight then false
  else if ¬ (hasPref pre e.1 = true) then false
  else
    match rxp with
    | none => true
    | some r =>
      match encodeUTF8 e.1 with
      | none => false
      | some s => r s

/-- The iteration of `name_scan` (names.cpp lines 608-633): while the count
budget is positive and entries remain, fetch the next entry, skip it unless
it passes all filters, and decrement the budget only on a pass. -/
def scanLoop (curHeight minConf maxConf : Int) (pre : Name)
    (rxp : Option (String → Bool)) (encodeUTF8 : Name → Option String) :
    Int → List (Name × CNameData) → List (Name × CNameData)
  | _, [] => []
  | count, e :: rest =>
    if count ≤ 0 then []
    else if scanPass curHeight minConf maxConf pre rxp encodeUTF8 e then
      e :: scanLoop curHeight minConf maxConf pre rxp encodeUTF8 (count - 1) rest
    else scanLoop curHeight minConf maxConf pre rxp encodeUTF8 count rest

/-- The scan engine after options validation: `iter->seek(start)` positions
the ordered index at the first entry whose name is ≥ `start`, then the loop
runs with the given count budget.  The index is the ordered list of
`(name, record)` pairs the external `CNameIterator` would produce. -/
def scanMatches (curHeight minConf maxConf : Int) (pre : Name)
    (rxp : Option (String → Bool)) (encodeUTF8 : Name → Option String)
    (start : Name) (count : Int) (index : List (Name × CNameData)) :
    List (Name × CNameData) :=
  scanLoop curHeight minConf maxConf pre rxp encodeUTF8 count
    (index.dropWhile (fun e => nameLt e.1 start))

/-- Model of the `name_scan` request body (names.cpp lines 537-636), after
the transport-level checks: decode `start` (when given) via the Encoding
Layer, validate and interpret the options, honour the `count ≤ 0` early
return, then run the scan.  The result elements are the `(name, record)`
pairs passed to `getNameInfo`; assembling them into output records is a pure
per-element step and does not affect which entries are selected. -/
def name_scan (compile : String → Option (String → Bool))
    (decodeName : NameEncoding → String → Option Name)
    (defNameEnc : NameEncoding) (encodeUTF8 : Name → Option String)
    (curHeight : Int) (startStr : Option String) (count : Int)
    (options : Bag) (index : List (Name × CNameData)) :
    Except RpcError (List (Name × CNameData)) := do
  let start : Name ←
    match startStr with
    | some s => DecodeNameFromRPCOrThrow decodeName defNameEnc s options
    | none => Except.ok []
  let ps ← parseScanOptions compile decodeName defNameEnc options
  if count ≤ 0 then Except.ok []
  else Except.ok (scanMatches curHeight ps.minConf ps.maxConf ps.pref ps.rxp
    encodeUTF8 start count index)

/-- A concrete regex engine on which no pattern compiles, for closed
evaluations of the invalid-pattern path. -/
def compFail : String → Option (String → Bool) := fun _ => none

/-- A concrete UTF-8 renderer under which no name renders, for closed
evaluations; a scan without a regexp filter never invokes it. -/
def encNone : Name → Option String := fun _ => none

/-- Claim C7, counterexample: an invalid `regexp` pattern is rejected before
any index entry is read, but not with `InvalidParameter` — the compile
failure escapes as a regex error (`boost::xpressive::sregex::compile` throws
`regex_error`, which `name_scan` does not translate), a different error than
the `RPC_INVALID_PARAMETER` used for `minConf`/`maxConf`. -/
theorem C7_counterexample :
    name_scan compFail decEmpty NameEncoding.ascii encNone 10 none 500
        [("regexp", UniValue.vstr "(")] []
      = Except.error RpcError.regexError
    ∧ RpcError.regexError ≠ RpcError.invalidParameter "invalid regexp" :=
  ⟨rfl, fun h => RpcError.noConfusion h⟩

/-- Claim C7, amended: at initialization of a scan request, `minConf < 1` is
rejected with `InvalidParameter`, a present `maxConf < 0` is rejected with
`InvalidParameter`, and an invalid `regexp` pattern is rejected with the
regex engine's compile error (not `InvalidParameter`) — in every case before
any index entry is read: the result is the same error for every index, and
even for a non-positive count. -/
theorem C7_amended :
    (∀ (compile : String → Option (String → Bool))
        (decodeName : NameEncoding → String → Option Name)
        (defEnc : NameEncoding) (enc : Name → Option String)
        (curHeight cnt : Int) (index : List (Name × CNameData)) (m : Int),
        m < 1 →
        name_scan compile decodeName defEnc enc curHeight none cnt
            [("minConf", UniValue.vnum m)] index
          = Except.error (RpcError.invalidParameter "minConf must be >= 1"))
    ∧ (∀ (compile : String → Option (String → Bool))
        (decodeName : NameEncoding → String → Option Name)
        (defEnc : NameEncoding) (enc : Name → Option String)
        (curHeight cnt : Int) (index : List (Name × CNameData)) (x : Int),
        x < 0 →
        name_scan compile decodeName defEnc enc curHeight none cnt
            [("maxConf", UniValue.vnum x)] index
          = Except.error (RpcError.invalidParameter "maxConf must not be negative"))
    ∧ (∀ (compile : String → Option (String → Bool))
        (decodeName : NameEncoding → String → Option Name)
        (defEnc : NameEncoding) (enc : Name → Option String)
        (curHeight cnt : Int) (index : List (Name × CNameData)) (r : String),
        compile r = none →
        name_scan compile decodeName defEnc enc curHeight none cnt
            [("regexp", UniValue.vstr r)] index
          = Except.error RpcError.regexError) := by
  refine ⟨?_, ?_, ?_⟩
  · intro compile decodeName defEnc enc curHeight cnt index m hm
    have hp : parseScanOptions compile decodeName defEnc
        [("minConf", UniValue.vnum m)]
        = if m < 1 then
            Except.error (RpcError.invalidParameter "minConf must be >= 1")
          else Except.ok { minConf := m, maxConf := -1, pref := [], rxp := none } :=
      rfl
    rw [if_pos hm] at hp
    simp only [name_scan, hp]
    rfl
  · intro compile decodeName defEnc enc curHeight cnt index x hx
    have hp : parseScanOptions compile decodeName defEnc
        [("maxConf", UniValue.vnum x)]
        = Except.error
            (RpcError.invalidParameter "maxConf must not be negative") := by
      simp only [parseScanOptions, RPCTypeCheckObj, checkExpected, findValue,
        UniValue.typeOf, String.reduceEq, reduceIte, if_pos hx]
      rfl
    simp only [name_scan, hp]
    rfl
  · intro compile decodeName defEnc enc curHeight cnt index r hr
    have hp : parseScanOptions compile decodeName defEnc
        [("regexp", UniValue.vstr r)]
        = match compile r with
          | some rx =>
            Except.ok { minConf := 1, maxConf := -1, pref := [], rxp := some rx }
          | none => Except.error RpcError.regexError := rfl
    rw [hr] at hp
    simp only [name_scan, hp]
    rfl

/-- Concrete instances for C7, amended: `minConf = 0`, `maxConf = -3` and an
uncompilable pattern each fail on an empty options run over any index (here
a one-entry index), with the stated errors. -/
theorem C7_amended_witness :
    name_scan compTrue decEmpty NameEncoding.ascii encNone 10 none 500
        [("minConf", UniValue.vnum 0)]
        [([0], { value := [], updOutpointHash := 0, updOutpointN := 0,
                 addr := [], height := 1 })]
      = Except.error (RpcError.invalidParameter "minConf must be >= 1")
    ∧ name_scan compTrue decEmpty NameEncoding.ascii encNone 10 none 500
        [("maxConf", UniValue.vnum (-3))]
        [([0], { value := [], updOutpointHash := 0, updOutpointN := 0,
                 addr := [], height := 1 })]
      = Except.error (RpcError.invalidParameter "maxConf must not be negative")
    ∧ name_scan compFail decEmpty NameEncoding.ascii encNone 10 none 500
        [("regexp", UniValue.vstr "[")]
        [([0], { value := [], updOutpointHash := 0, updOutpointN := 0,
                 addr := [], height := 1 })]
      = Except.error RpcError.regexError :=
  ⟨C7_amended.1 compTrue decEmpty NameEncoding.ascii encNone 10 500 _ 0
      (by decide),
   C7_amended.2.1 compTrue decEmpty NameEncoding.ascii encNone 10 500 _ (-3)
      (by decide),
   C7_amended.2.2 compFail decEmpty NameEncoding.ascii encNone 10 500 _ "["
      rfl⟩

/-- Unfolding equation of the scan loop on an empty remainder. -/
theorem scanLoop_nil (H mc xc : Int) (pre : Name)
    (rxp : Option (String → Bool)) (enc : Name → Option String) (c : Int) :
    scanLoop H mc xc pre rxp enc c [] = [] := rfl

/-- Unfolding equation of the scan loop on a fetched entry. -/
theorem scanLoop_cons (H mc xc : Int) (pre : Name)
    (rxp : Option (String → Bool)) (enc : Name → Option String) (c : Int)
    (e : Name × CNameData) (rest : List (Name × CNameData)) :
    scanLoop H mc xc pre rxp enc c (e :: rest)
      = if c ≤ 0 then []
        else if scanPass H mc xc pre rxp enc e then
          e :: scanLoop H mc xc pre rxp enc (c - 1) rest
        else scanLoop H mc xc pre rxp enc c rest := rfl

/-- The scan loop is the count-capped filter of the remaining entries: it
returns the first `count` entries (in index order) passing all filters. -/
theorem scanLoop_eq_take_filter (H mc xc : Int) (pre : Name)
    (rxp : Option (String → Bool)) (enc : Name → Option String) :
    ∀ (l : List (Name × CNameData)) (c : Int),
    scanLoop H mc xc pre rxp enc c l
      = (l.filter (scanPass H mc xc pre rxp enc)).take c.toNat := by
  intro l
  induction l with
  | nil => intro c; simp [scanLoop_nil]
  | cons e rest ih =>
    intro c
    by_cases hc : c ≤ 0
    · have hz : c.toNat = 0 := by omega
      simp [scanLoop_cons, hc, hz]
    · by_cases hp : scanPass H mc xc pre rxp enc e
      · have h1 : c.toNat = (c - 1).toNat + 1 := by omega
        rw [scanLoop_cons, if_neg hc, if_pos hp, ih, h1,
          List.filter_cons_of_pos hp, List.take_succ_cons]
      · rw [scanLoop_cons, if_neg hc, if_neg hp, ih,
          List.filter_cons_of_neg (by simp [hp])]

/-- A passing entry satisfies the height window of the source: its height is
at most `curHeight - minConf + 1`, and when `maxConf` was given and the
derived `minHeight` is itself non-negative, at least `curHeight - maxConf + 1`. -/
theorem scanPass_height_bounds (H mc xc : Int) (pre : Name)
    (rxp : Option (String → Bool)) (enc : Name → Option String)
    (e : Name × CNameData)
    (hp : scanPass H mc xc pre rxp enc e = true) :
    e.2.height ≤ H - mc + 1
    ∧ (0 ≤ xc → 0 ≤ H - xc + 1 → H - xc + 1 ≤ e.2.height) := by
  simp only [scanPass] at hp
  have hnot1 : ¬ (H - mc + 1 < e.2.height) := by
    intro h1
    rw [if_pos h1] at hp
    exact Bool.noConfusion hp
  rw [if_neg hnot1] at hp
  have hnot2 : ¬ (0 ≤ (if 0 ≤ xc then H - xc + 1 else -1)
      ∧ e.2.height < (if 0 ≤ xc then H - xc + 1 else -1)) := by
    intro h2
    rw [if_pos h2] at hp
    exact Bool.noConfusion hp
  refine ⟨by omega, ?_⟩
  intro hxc hmh
  rw [if_pos hxc] at hnot2
  omega

/-- Claim C8: every entry a scan includes comes from the index and satisfies
the height window — `height ≤ currentHeight - minConf + 1`, and when
`maxConf` is given (`maxConf ≥ 0`), `height ≥ currentHeight - maxConf + 1`
(for a chain of non-negative record heights).  Entries outside the window
are merely not selected: the scan still returns a plain list, no error. -/
theorem C8_height_window (H mc xc : Int) (pre : Name)
    (rxp : Option (String → Bool)) (enc : Name → Option String)
    (start : Name) (cnt : Int) (index : List (Name × CNameData))
    (hh : ∀ p ∈ index, 0 ≤ p.2.height) :
    ∀ e ∈ scanMatches H mc xc pre rxp enc start cnt index,
      e ∈ index ∧ e.2.height ≤ H - mc + 1
        ∧ (0 ≤ xc → H - xc + 1 ≤ e.2.height) := by
  intro e he
  rw [scanMatches, scanLoop_eq_take_filter] at he
  have hf := List.mem_of_mem_take he
  have hmem : e ∈ index := (List.dropWhile_sublist _).subset (List.mem_filter.mp hf).1
  have hpass : scanPass H mc xc pre rxp enc e = true := (List.mem_filter.mp hf).2
  have hb := scanPass_height_bounds H mc xc pre rxp enc e hpass
  refine ⟨hmem, hb.1, ?_⟩
  intro hxc
  by_cases hmh : 0 ≤ H - xc + 1
  · exact hb.2 hxc hmh
  · have := hh e hmem
    omega

/-- A concrete committed record at height 10, for closed scan evaluations. -/
def rec10 : CNameData :=
  { value := [], updOutpointHash := 0, updOutpointN := 0, addr := [], height := 10 }

/-- Concrete instance of C8: a record at height 10 with current height 10,
`minConf = 1` and `maxConf = 3` is selected and lies inside the window. -/
theorem C8_height_window_witness :
    ([0], rec10) ∈ scanMatches 10 1 3 [] none encNone [] 5 [([0], rec10)]
    ∧ (([0], rec10) ∈ [([0], rec10)]
      ∧ rec10.height ≤ 10 - 1 + 1
      ∧ ((0:Int) ≤ 3 → 10 - 3 + 1 ≤ rec10.height)) :=
  ⟨by decide,
   C8_height_window 10 1 3 [] none encNone [] 5 [([0], rec10)] (by decide)
     ([0], rec10) (by decide)⟩

/-! ## Order facts about the index and scan pagination (claim C2) -/

/-- The index order is irreflexive. -/
theorem nameLt_irrefl (a : Name) : nameLt a a = false := by
  induction a with
  | nil => rfl
  | cons x xs ih => simp [nameLt, ih]

/-- The index order is transitive. -/
theorem nameLt_trans : ∀ {a b c : Name},
    nameLt a b = true → nameLt b c = true → nameLt a c = true := by
  intro a
  induction a with
  | nil =>
    intro b c hab hbc
    cases b with
    | nil => simp [nameLt] at hab
    | cons y ys =>
      cases c with
      | nil => simp [nameLt] at hbc
      | cons z zs => simp [nameLt]
  | cons x xs ih =>
    intro b c hab hbc
    cases b with
    | nil => simp [nameLt] at hab
    | cons y ys =>
      cases c with
      | nil => simp [nameLt] at hbc
      | cons z zs =>
        simp only [nameLt, Bool.or_eq_true, Bool.and_eq_true, beq_iff_eq,
          decide_eq_true_eq] at hab hbc ⊢
        rcases hab with h1 | ⟨h1, h1'⟩
        · rcases hbc with h2 | ⟨h2, h2'⟩
          · exact Or.inl (Nat.lt_trans h1 h2)
          · exact Or.inl (h2 ▸ h1)
        · rcases hbc with h2 | ⟨h2, h2'⟩
          · exact Or.inl (h1 ▸ h2)
          · exact Or.inr ⟨h1.trans h2, ih h1' h2'⟩

/-- The index order is total: two unordered names are equal. -/
theorem nameLt_total : ∀ {a b : Name},
    nameLt a b = false → a = b ∨ nameLt b a = true := by
  intro a
  induction a with
  | nil =>
    intro b hab
    cases b with
    | nil => exact Or.inl rfl
    | cons y ys => simp [nameLt] at hab
  | cons x xs ih =>
    intro b hab
    cases b with
    | nil => exact Or.inr rfl
    | cons y ys =>
      simp only [nameLt, Bool.or_eq_false_iff, Bool.and_eq_false_iff] at hab
      obtain ⟨h1, h2⟩ := hab
      have hxy : ¬ x < y := by simpa using h1
      by_cases hyx : x = y
      · subst hyx
        rcases h2 with h2 | h2
        · simp at h2
        · rcases ih h2 with h3 | h3
          · exact Or.inl (by rw [h3])
          · refine Or.inr ?_
            simp [nameLt, h3]
      · have : y < x := by omega
        refine Or.inr ?_
        simp [nameLt, this]

/-- The index order is asymmetric. -/
theorem nameLt_asymm {a b : Name} (h : nameLt a b = true) :
    nameLt b a = false := by
  by_contra hba
  have hba' : nameLt b a = true := by
    cases hx : nameLt b a
    · exact absurd hx hba
    · rfl
  have := nameLt_trans h hba'
  rw [nameLt_irrefl] at this
  exact Bool.noConfusion this

/-- On a sorted index, seeking to `s` (dropping the entries before `s`)
keeps exactly the entries ≥ `s`. -/
theorem dropWhile_lt_eq_filter (s : Name) :
    ∀ (l : List (Name × CNameData)),
    l.Pairwise (fun p q => nameLt p.1 q.1 = true) →
    l.dropWhile (fun e => nameLt e.1 s)
      = l.filter (fun e => !(nameLt e.1 s)) := by
  intro l
  induction l with
  | nil => intro _; rfl
  | cons e rest ih =>
    intro hp
    have hpr := (List.pairwise_cons.mp hp).1
    have hpt := (List.pairwise_cons.mp hp).2
    by_cases he : nameLt e.1 s = true
    · simp [List.dropWhile_cons, he, List.filter_cons, ih hpt]
    · have he' : nameLt e.1 s = false := by
        cases hx : nameLt e.1 s
        · rfl
        · exact absurd hx he
      have hall : ∀ q ∈ rest, (!(nameLt q.1 s)) = true := by
        intro q hq
        have heq := hpr q hq
        cases hx : nameLt q.1 s
        · rfl
        · have := nameLt_trans heq hx
          rw [he'] at this
          exact Bool.noConfusion this
      simp [List.dropWhile_cons, he', List.filter_cons,
        List.filter_eq_self.mpr hall]

/-- On a sorted list, keeping the entries ≥ the name found at position `j`
is the same as dropping the first `j` entries. -/
theorem filter_ge_at_eq_drop :
    ∀ (l : List (Name × CNameData)) (j : Nat) (hj : j < l.length) (L : Name),
    l.Pairwise (fun p q => nameLt p.1 q.1 = true) →
    (l.get ⟨j, hj⟩).1 = L →
    l.filter (fun e => !(nameLt e.1 L)) = l.drop j := by
  intro l
  induction l with
  | nil =>
    intro j hj
    simp at hj
  | cons e rest ih =>
    intro j hj L hp hL
    have hpr := (List.pairwise_cons.mp hp).1
    have hpt := (List.pairwise_cons.mp hp).2
    cases j with
    | zero =>
      have heL : e.1 = L := hL
      have hall : ∀ q ∈ rest, (!(nameLt q.1 L)) = true := by
        intro q hq
        rw [← heL]
        rw [nameLt_asymm (hpr q hq)]
        rfl
      have hhd : (!(nameLt e.1 L)) = true := by
        rw [← heL, nameLt_irrefl]
        rfl
      simp [List.filter_cons, hhd, List.filter_eq_self.mpr hall]
    | succ j =>
      have hj' : j < rest.length := by simpa using hj
      have hmem : rest.get ⟨j, hj'⟩ ∈ rest := List.get_mem rest j hj'
      have heL : nameLt e.1 L = true := by
        rw [← hL]
        exact hpr _ hmem
      have hhd : (!(nameLt e.1 L)) = false := by rw [heL]; rfl
      simp only [List.filter_cons, hhd, List.drop_succ_cons]
      exact ih j hj' L hpt hL

/-- Taking `m + n` elements is taking `m`, then `n` more from the rest. -/
theorem take_add_append (xs : List (Name × CNameData)) :
    ∀ (m n : Nat), xs.take (m + n) = xs.take m ++ (xs.drop m).take n := by
  induction xs with
  | nil => intro m n; simp
  | cons e rest ih =>
    intro m n
    cases m with
    | zero => simp
    | succ m =>
      have : m + 1 + n = (m + n) + 1 := by omega
      simp [this, List.take_succ_cons, List.drop_succ_cons, ih m n]

/-- The core pagination identity on a sorted index: a page of `n` matches
followed by the tail of a page of `m` matches re-started (inclusively) at
the last returned name is the single page of `n + m - 1` matches. -/
theorem take_pagination (P : Name × CNameData → Bool)
    (index : List (Name × CNameData))
    (hs : index.Pairwise (fun p q => nameLt p.1 q.1 = true))
    (X L : Name) (n m : Nat) (hm : 1 ≤ m)
    (hne : (index.filter (fun e => P e && !(nameLt e.1 X))).take n ≠ [])
    (hL : (((index.filter (fun e => P e && !(nameLt e.1 X))).take n).getLast
        hne).1 = L) :
    (index.filter (fun e => P e && !(nameLt e.1 X))).take n
      ++ ((index.filter (fun e => P e && !(nameLt e.1 L))).take m).tail
      = (index.filter (fun e => P e && !(nameLt e.1 X))).take (n + m - 1) := by
  set MX := index.filter (fun e => P e && !(nameLt e.1 X)) with hMX
  have hk : 0 < (MX.take n).length := List.length_pos.mpr hne
  set k := (MX.take n).length with hkdef
  have hkmin : k = min n MX.length := by rw [hkdef, List.length_take]
  have hkle : k ≤ MX.length := by omega
  have hkn : k ≤ n := by omega
  have hjlt : k - 1 < MX.length := by omega
  have hget : (MX.take n).getLast hne = MX.get ⟨k - 1, hjlt⟩ := by
    rw [List.getLast_eq_get, List.get_take']
  have hLget : (MX.get ⟨k - 1, hjlt⟩).1 = L := by rw [← hget]; exact hL
  have hsMX : MX.Pairwise (fun p q => nameLt p.1 q.1 = true) :=
    List.Pairwise.sublist (List.filter_sublist index) hs
  have hmemMX : MX.get ⟨k - 1, hjlt⟩ ∈ MX := List.get_mem MX _ _
  have hLX : nameLt L X = false := by
    have hpred := (List.mem_filter.mp hmemMX).2
    rw [Bool.and_eq_true] at hpred
    have := hpred.2
    rw [hLget] at this
    rwa [Bool.not_eq_true'] at this
  have hfilters : index.filter (fun e => P e && !(nameLt e.1 L))
      = MX.drop (k - 1) := by
    have hcongr : index.filter (fun e => P e && !(nameLt e.1 L))
        = MX.filter (fun e => !(nameLt e.1 L)) := by
      rw [hMX, List.filter_filter]
      apply List.filter_congr
      intro a _
      cases ha : nameLt a.1 L with
      | true => simp
      | false =>
        have hax : nameLt a.1 X = false := by
          cases hax : nameLt a.1 X with
          | false => rfl
          | true =>
            rcases nameLt_total ha with h | h
            · rw [h] at hax
              rw [hax] at hLX
              exact Bool.noConfusion hLX
            · have := nameLt_trans h hax
              rw [hLX] at this
              exact Bool.noConfusion this
        simp [hax]
    rw [hcongr]
    exact filter_ge_at_eq_drop MX (k - 1) hjlt L hsMX hLget
  rw [hfilters]
  have hk1 : k - 1 + 1 = k := by omega
  have hdrop : MX.drop (k - 1) = MX.get ⟨k - 1, hjlt⟩ :: MX.drop k := by
    rw [List.drop_eq_get_cons hjlt, hk1]
  rw [hdrop]
  obtain ⟨m', rfl⟩ : ∃ m', m = m' + 1 := ⟨m - 1, by omega⟩
  rw [List.take_succ_cons, List.tail_cons]
  have hrhs : n + (m' + 1) - 1 = n + m' := by omega
  rw [hrhs]
  by_cases hcase : n ≤ MX.length
  · have hkn' : k = n := by omega
    rw [← hkn']
    exact (take_add_append MX k m').symm
  · have hkl : k = MX.length := by omega
    have e1 : MX.take n = MX := List.take_of_length_le (by omega)
    have e2 : MX.take (n + m') = MX := List.take_of_length_le (by omega)
    rw [e1, e2, hkl, List.drop_length]
    simp

/-- Equal non-empty lists have equal last elements. -/
theorem getLast_congr_lists {α : Type} (l1 l2 : List α) (h1 : l1 ≠ [])
    (h2 : l2 ≠ []) (he : l1 = l2) : l1.getLast h1 = l2.getLast h2 := by
  subst he
  rfl

/-- On a sorted index, a scan is the count-capped filter of the entries at or
after the start cursor. -/
theorem scanMatches_eq_take_filter (H mc xc : Int) (pre : Name)
    (rxp : Option (String → Bool)) (enc : Name → Option String)
    (s : Name) (c : Int) (index : List (Name × CNameData))
    (hs : index.Pairwise (fun p q => nameLt p.1 q.1 = true)) :
    scanMatches H mc xc pre rxp enc s c index
      = (index.filter (fun e =>
          scanPass H mc xc pre rxp enc e && !(nameLt e.1 s))).take c.toNat := by
  rw [scanMatches, scanLoop_eq_take_filter, dropWhile_lt_eq_filter s index hs,
    List.filter_filter]

/-- Claim C2, amended: for every sorted index and every `N ≥ 0`, a scan with
count `N` returns at most `N` elements; and when the first page is non-empty
and `M ≥ 1`, concatenating it with the follow-up page
`scan(start = lastReturnedName, count = M)` minus that page's first element
(the re-appearing last name) yields the single page
`scan(start = X, count = N + M - 1)` — one element fewer than the
`N + M`-page the original claim states. -/
theorem C2_pagination_amended (H mc xc : Int) (pre : Name)
    (rxp : Option (String → Bool)) (enc : Name → Option String)
    (X : Name) (N M : Int) (index : List (Name × CNameData))
    (hs : index.Pairwise (fun p q => nameLt p.1 q.1 = true))
    (hN : 0 ≤ N) :
    (scanMatches H mc xc pre rxp enc X N index).length ≤ N.toNat
    ∧ ∀ (hF : scanMatches H mc xc pre rxp enc X N index ≠ []),
      1 ≤ M →
      scanMatches H mc xc pre rxp enc X N index
        ++ (scanMatches H mc xc pre rxp enc
              ((scanMatches H mc xc pre rxp enc X N index).getLast hF).1
              M index).tail
      = scanMatches H mc xc pre rxp enc X (N + M - 1) index := by
  refine ⟨?_, ?_⟩
  · rw [scanMatches_eq_take_filter H mc xc pre rxp enc X N index hs]
    exact List.length_take_le _ _
  · intro hF hM
    obtain ⟨L, hL⟩ : ∃ L,
        ((scanMatches H mc xc pre rxp enc X N index).getLast hF).1 = L :=
      ⟨_, rfl⟩
    rw [hL]
    have hEq := scanMatches_eq_take_filter H mc xc pre rxp enc X N index hs
    rw [scanMatches_eq_take_filter H mc xc pre rxp enc L M index hs,
      scanMatches_eq_take_filter H mc xc pre rxp enc X (N + M - 1) index hs,
      hEq]
    have hne : (index.filter (fun e =>
        scanPass H mc xc pre rxp enc e && !(nameLt e.1 X))).take N.toNat
        ≠ [] := by
      rw [← hEq]
      exact hF
    have hgl := getLast_congr_lists _ _ hne hF hEq.symm
    have hL' : (((index.filter (fun e =>
        scanPass H mc xc pre rxp enc e && !(nameLt e.1 X))).take
          N.toNat).getLast hne).1 = L := by
      rw [hgl]
      exact hL
    have hcnt : (N + M - 1).toNat = N.toNat + M.toNat - 1 := by omega
    rw [hcnt]
    exact take_pagination (scanPass H mc xc pre rxp enc) index hs X L
      N.toNat M.toNat (by omega) hne hL'

/-- Claim C2, counterexample: over the sorted two-entry index
{[0], [1]} (both at height 10, current height 10, no filters), the first
page with `N = 1` is `[([0], rec10)]`, whose last name is `[0]`; the
follow-up page `scan(start = [0], count = 1)` is again `[([0], rec10)]`, so
the concatenation with the duplicate removed is `[([0], rec10)]` — but the
single scan with count `N + M = 2` returns both entries.  The claimed
equality with the `N + M` page fails. -/
theorem C2_counterexample :
    scanMatches 10 1 (-1) [] none encNone [] 1 [([0], rec10), ([1], rec10)]
      = [([0], rec10)]
    ∧ scanMatches 10 1 (-1) [] none encNone [0] 1 [([0], rec10), ([1], rec10)]
      = [([0], rec10)]
    ∧ scanMatches 10 1 (-1) [] none encNone [] 1 [([0], rec10), ([1], rec10)]
        ++ (scanMatches 10 1 (-1) [] none encNone [0] 1
              [([0], rec10), ([1], rec10)]).tail
      ≠ scanMatches 10 1 (-1) [] none encNone [] (1 + 1)
          [([0], rec10), ([1], rec10)] := by
  refine ⟨by decide, by decide, by decide⟩

/-- Concrete instance of C2, amended: on the three-entry index
{[0], [1], [2]}, pages `N = 2` then `M = 2` (re-starting at the returned
last name `[1]`) concatenate, minus the duplicate, to the single page of
`N + M - 1 = 3` elements. -/
theorem C2_pagination_amended_witness :
    (scanMatches 10 1 (-1) [] none encNone [] 2
        [([0], rec10), ([1], rec10), ([2], rec10)]).length ≤ (2:Int).toNat
    ∧ scanMatches 10 1 (-1) [] none encNone [] 2
          [([0], rec10), ([1], rec10), ([2], rec10)]
        ++ (scanMatches 10 1 (-1) [] none encNone [1] 2
              [([0], rec10), ([1], rec10), ([2], rec10)]).tail
      = scanMatches 10 1 (-1) [] none encNone [] (2 + 2 - 1)
          [([0], rec10), ([1], rec10), ([2], rec10)] :=
  ⟨(C2_pagination_amended 10 1 (-1) [] none encNone [] 2 2
      [([0], rec10), ([1], rec10), ([2], rec10)] (by decide) (by decide)).1,
   (C2_pagination_amended 10 1 (-1) [] none encNone [] 2 2
      [([0], rec10), ([1], rec10), ([2], rec10)] (by decide) (by decide)).2
     (by decide) (by decide)⟩

/-! ## The streaming export writer of `name_export` -/

/-- Model of the `std::ofstream` destination of `name_export`: the source
opens it without enabling stream exceptions and never inspects its state,
so a destination that failed to open swallows every write silently. -/
structure OutFile where
  isOpen : Bool
  contents : String
deriving DecidableEq

/-- One `<<` on the destination: appends when the stream opened, silently
does nothing otherwise (the failbit behaviour of an unopened `ofstream`). -/
def OutFile.write (f : OutFile) (s : String) : OutFile :=
  if f.isOpen then { f with contents := f.contents ++ s } else f

/-- Model of `pushTimestampOfDataTx` (names.cpp lines 197-214): resolve the
record's last-update transaction to a block timestamp via the external
`GetTransaction`/block-index services (the partial function `getTxTime`);
failure throws `RPC_INVALID_ADDRESS_OR_KEY`.  (The source picks one of three
messages depending on txindex availability; the error code is the same.) -/
def pushTimestampOfDataTx (getTxTime : Nat → Option Int) (entry : CNameData) :
    Except RpcError Int :=
  match getTxTime entry.updOutpointHash with
  | none =>
    Except.error (RpcError.invalidAddressOrKey
      "No such mempool or blockchain transaction")
  | some t => Except.ok t

/-- Sequences the per-history-entry timestamp lookups of the export's inner
loop, stopping at the first failure exactly as the C++ loop's exception
would. -/
def timesOfHistory (getTxTime : Nat → Option Int) :
    List CNameData → Except RpcError (List (CNameData × Int))
  | [] => Except.ok []
  | e :: rest =>
    match pushTimestampOfDataTx getTxTime e with
    | Except.error err => Except.error err
    | Except.ok t =>
      match timesOfHistory getTxTime rest with
      | Except.error err => Except.error err
      | Except.ok ts => Except.ok ((e, t) :: ts)

/-- The iteration of `name_export` (names.cpp lines 710-758).  For each index
entry: render the name as UTF-8 (an `InvalidNameString` is caught by the
loop's `catch` and skips the entry), test the regex, then either write the
bare name as a JSON string (`wStr`, the UniValue string serializer) or — with
history — resolve the timestamps of the record and of every history entry
(a `JSONRPCError` here is NOT caught by the `catch (InvalidNameString)` and
aborts the whole call) and write the joined record (`wObj`).  The element
separator is "," plus a newline in the bare-name branch and a plain "," in
the history branch, exactly as in the source; the counter increments after
the write and only then is the `count` cap tested. -/
def exportLoop (rx : String → Bool) (encodeUTF8 : Name → Option String)
    (withHistory : Bool) (maxCount : Int) (histOf : Name → List CNameData)
    (getTxTime : Nat → Option Int) (wStr : String → String)
    (wObj : Name → CNameData → Int → List (CNameData × Int) → String) :
    List (Name × CNameData) → Int → OutFile → Except RpcError (Int × OutFile)
  | [], count, f => Except.ok (count, f)
  | (name, data) :: rest, count, f =>
    match encodeUTF8 name with
    | none =>
      exportLoop rx encodeUTF8 withHistory maxCount histOf getTxTime wStr wObj
        rest count f
    | some nameStr =>
      if ¬ (rx nameStr = true) then
        exportLoop rx encodeUTF8 withHistory maxCount histOf getTxTime wStr wObj
          rest count f
      else
        match (if withHistory then
            match pushTimestampOfDataTx getTxTime data with
            | Except.error err => Except.error err
            | Except.ok t =>
              match timesOfHistory getTxTime (histOf name) with
              | Except.error err => Except.error err
              | Except.ok histTimes =>
                let objStr := wObj name data t histTimes
                Except.ok (if count = 0 then f.write objStr
                  else f.write ("," ++ objStr))
          else
            let elemStr := wStr nameStr
            Except.ok (if count = 0 then f.write elemStr
              else f.write (",\n" ++ elemStr))) with
        | Except.error err => Except.error err
        | Except.ok f2 =>
          if maxCount ≠ -1 ∧ maxCount ≤ count + 1 then Except.ok (count + 1, f2)
          else
            exportLoop rx encodeUTF8 withHistory maxCount histOf getTxTime wStr
              wObj rest (count + 1) f2

/-- The human-readable summary string `name_export` returns. -/
def exportSummary (count : Int) (regexpStr : String) : String :=
  "Found " ++ toString count ++ " names with \"" ++ regexpStr ++ "\" regexp"

/-- Model of the `name_export` request body (names.cpp lines 699-767) after
options extraction: open the destination (`canWrite` tells whether the
external path is writable), write the opening bracket and newline, run the
loop over the whole index from the beginning, then write the closing newline
and bracket and return the summary.  An error escaping the loop aborts the
call before the closing bracket and summary (the C++ `ofstream` destructor
still closes the partial file).  `rx` is the compiled `regexp` argument. -/
def name_export (rx : String → Bool) (encodeUTF8 : Name → Option String)
    (withHistory : Bool) (maxCount : Int) (histOf : Name → List CNameData)
    (getTxTime : Nat → Option Int) (wStr : String → String)
    (wObj : Name → CNameData → Int → List (CNameData × Int) → String)
    (regexpStr : String) (canWrite : Bool)
    (index : List (Name × CNameData)) : Except RpcError (String × OutFile) :=
  let f0 : OutFile := { isOpen := canWrite, contents := "" }
  let f1 := f0.write "[\n"
  match exportLoop rx encodeUTF8 withHistory maxCount histOf getTxTime wStr
      wObj index 0 f1 with
  | Except.error err => Except.error err
  | Except.ok (count, f2) =>
    let f3 := f2.write "\n]"
    Except.ok (exportSummary count regexpStr, f3)

/-- The UTF-8 renderings of the names an export selects: those that render
and match the regex, in index order. -/
def matchedStrs (rx : String → Bool) (encodeUTF8 : Name → Option String)
    (index : List (Name × CNameData)) : List String :=
  index.filterMap (fun e =>
    match encodeUTF8 e.1 with
    | none => none
    | some s => if rx s then some s else none)

/-- Writing never changes whether the destination opened. -/
theorem OutFile.write_isOpen (f : OutFile) (s : String) :
    (f.write s).isOpen = f.isOpen := by
  rw [OutFile.write]
  split <;> rfl

/-- Writing to a destination that failed to open is a no-op. -/
theorem OutFile.write_closed (f : OutFile) (s : String)
    (h : f.isOpen = false) : f.write s = f := by
  rw [OutFile.write, h]
  rfl

/-- Writing only ever appends to the destination. -/
theorem OutFile.write_extends (f : OutFile) (s : String) :
    ∃ mid, (f.write s).contents = f.contents ++ mid := by
  rw [OutFile.write]
  by_cases h : f.isOpen = true
  · rw [if_pos h]
    exact ⟨s, rfl⟩
  · rw [if_neg h]
    exact ⟨"", (String.append_empty _).symm⟩

/-- Unfolding equation of the export loop on an exhausted index. -/
theorem exportLoop_nil (rx : String → Bool) (encodeUTF8 : Name → Option String)
    (withHistory : Bool) (maxCount : Int) (histOf : Name → List CNameData)
    (getTxTime : Nat → Option Int) (wStr : String → String)
    (wObj : Name → CNameData → Int → List (CNameData × Int) → String)
    (count : Int) (f : OutFile) :
    exportLoop rx encodeUTF8 withHistory maxCount histOf getTxTime wStr wObj
      [] count f = Except.ok (count, f) := rfl

/-- Unfolding equation of the export loop on the next index entry. -/
theorem exportLoop_cons (rx : String → Bool) (encodeUTF8 : Name → Option String)
    (withHistory : Bool) (maxCount : Int) (histOf : Name → List CNameData)
    (getTxTime : Nat → Option Int) (wStr : String → String)
    (wObj : Name → CNameData → Int → List (CNameData × Int) → String)
    (name : Name) (data : CNameData) (rest : List (Name × CNameData))
    (count : Int) (f : OutFile) :
    exportLoop rx encodeUTF8 withHistory maxCount histOf getTxTime wStr wObj
      ((name, data) :: rest) count f
    = match encodeUTF8 name with
      | none =>
        exportLoop rx encodeUTF8 withHistory maxCount histOf getTxTime wStr wObj
          rest count f
      | some nameStr =>
        if ¬ (rx nameStr = true) then
          exportLoop rx encodeUTF8 withHistory maxCount histOf getTxTime wStr
            wObj rest count f
        else
          match (if withHistory then
              match pushTimestampOfDataTx getTxTime data with
              | Except.error err => Except.error err
              | Except.ok t =>
                match timesOfHistory getTxTime (histOf name) with
                | Except.error err => Except.error err
                | Except.ok histTimes =>
                  let objStr := wObj name data t histTimes
                  Except.ok (if count = 0 then f.write objStr
                    else f.write ("," ++ objStr))
            else
              let elemStr := wStr nameStr
              Except.ok (if count = 0 then f.write elemStr
                else f.write (",\n" ++ elemStr))) with
          | Except.error err => Except.error err
          | Except.ok f2 =>
            if maxCount ≠ -1 ∧ maxCount ≤ count + 1 then
              Except.ok (count + 1, f2)
            else
              exportLoop rx encodeUTF8 withHistory maxCount histOf getTxTime
                wStr wObj rest (count + 1) f2 := rfl

/-- The comma-separated element writer the bare-name export effectively runs:
the first element (counter 0) is written plain, later ones prefixed with a
comma and newline. -/
def writeElems (wStr : String → String) : OutFile → Int → List String → OutFile
  | f, _, [] => f
  | f, c, s :: rest =>
    writeElems wStr
      (if c = 0 then f.write (wStr s) else f.write (",\n" ++ wStr s)) (c + 1)
      rest

/-- Without history and without a count cap, the export loop writes exactly
the matched names, comma-separated, and counts them. -/
theorem exportLoop_nohist (rx : String → Bool)
    (encodeUTF8 : Name → Option String) (histOf : Name → List CNameData)
    (getTxTime : Nat → Option Int) (wStr : String → String)
    (wObj : Name → CNameData → Int → List (CNameData × Int) → String) :
    ∀ (l : List (Name × CNameData)) (c : Int) (f : OutFile),
    exportLoop rx encodeUTF8 false (-1) histOf getTxTime wStr wObj l c f
      = Except.ok (c + (matchedStrs rx encodeUTF8 l).length,
          writeElems wStr f c (matchedStrs rx encodeUTF8 l)) := by
  intro l
  induction l with
  | nil =>
    intro c f
    simp [exportLoop_nil, matchedStrs, writeElems]
  | cons e rest ih =>
    intro c f
    obtain ⟨name, data⟩ := e
    rw [exportLoop_cons]
    cases henc : encodeUTF8 name with
    | none =>
      rw [ih]
      simp [matchedStrs, henc]
    | some s =>
      by_cases hrx : rx s = true
      · have hms : matchedStrs rx encodeUTF8 ((name, data) :: rest)
            = s :: matchedStrs rx encodeUTF8 rest := by
          simp [matchedStrs, henc, hrx]
        have hcap : ¬ ((-1 : Int) ≠ -1 ∧ (-1 : Int) ≤ c + 1) := by simp
        simp only [hrx, not_true_eq_false, if_false, reduceIte, hcap, ih, hms,
          writeElems]
        have hlen : c + 1 + ((matchedStrs rx encodeUTF8 rest).length : Int)
            = c + ((matchedStrs rx encodeUTF8 rest).length + 1 : Nat) := by
          push_cast
          omega
        rw [hlen]
        rfl
      · have hrx' : rx s = false := by
          cases hx : rx s
          · rfl
          · exact absurd hx hrx
        simp only [hrx', not_false_eq_true, if_true, ih]
        simp [matchedStrs, henc, hrx']

/-- Claim C6: an export without history over an index in which exactly 3
names match the regexp (here: render to `s1, s2, s3`) writes a JSON array of
exactly those 3 string elements, comma-separated with no trailing comma, and
reports 3 exported names.  (The `count` option is at its default `-1` =
unbounded, as in the spec's Scenario D.) -/
theorem C6_export_three_names (rx : String → Bool)
    (encodeUTF8 : Name → Option String) (histOf : Name → List CNameData)
    (getTxTime : Nat → Option Int) (wStr : String → String)
    (wObj : Name → CNameData → Int → List (CNameData × Int) → String)
    (regexpStr : String) (index : List (Name × CNameData)) (s1 s2 s3 : String)
    (hm : matchedStrs rx encodeUTF8 index = [s1, s2, s3]) :
    name_export rx encodeUTF8 false (-1) histOf getTxTime wStr wObj regexpStr
        true index
      = Except.ok (exportSummary 3 regexpStr,
          { isOpen := true,
            contents := "[\n" ++ wStr s1 ++ ",\n" ++ wStr s2 ++ ",\n" ++ wStr s3
              ++ "\n]" }) := by
  have hf1 : ({ isOpen := true, contents := "" } : OutFile).write "[\n"
      = { isOpen := true, contents := "[\n" } := rfl
  have hloop := exportLoop_nohist rx encodeUTF8 histOf getTxTime wStr wObj
    index 0 { isOpen := true, contents := "[\n" }
  rw [hm] at hloop
  simp only [name_export, hf1, hloop]
  simp [writeElems, OutFile.write, exportSummary, String.append_assoc]

/-- A concrete regex predicate matching everything (the compiled form of a
match-all pattern). -/
def rxTrue : String → Bool := fun _ => true

/-- A concrete UTF-8 renderer rendering a name as its length, so that
distinct-length names render distinctly. -/
def encLen : Name → Option String := fun n => some (toString n.length)

/-- The JSON string serializer shape used for closed evaluations. -/
def wStrQuote : String → String := fun s => "\x22" ++ s ++ "\x22"

/-- A trivial record serializer for closed evaluations of the no-history
export (never consulted there). -/
def wObjEmpty : Name → CNameData → Int → List (CNameData × Int) → String :=
  fun _ _ _ _ => ""

/-- A history provider with no history, for closed evaluations. -/
def histEmpty : Name → List CNameData := fun _ => []

/-- A transaction-timestamp lookup that never resolves, for closed
evaluations. -/
def txTimeNone : Nat → Option Int := fun _ => none

/-- Concrete instance of C6: three names of lengths 0, 1, 2 all match; the
export file is the three-element JSON array with no trailing comma. -/
theorem C6_export_three_names_witness :
    name_export rxTrue encLen false (-1) histEmpty txTimeNone wStrQuote
        wObjEmpty "re" true [([], rec10), ([0], rec10), ([0, 0], rec10)]
      = Except.ok (exportSummary 3 "re",
          { isOpen := true,
            contents := "[\n" ++ wStrQuote "0" ++ ",\n" ++ wStrQuote "1"
              ++ ",\n" ++ wStrQuote "2" ++ "\n]" }) :=
  C6_export_three_names rxTrue encLen histEmpty txTimeNone wStrQuote wObjEmpty
    "re" [([], rec10), ([0], rec10), ([0, 0], rec10)] "0" "1" "2" (by decide)

/-- With a count cap that is neither `-1` nor positive, the export loop still
writes the first matched name before testing the cap, then stops with count
1: the cap is checked only after `count++`. -/
theorem exportLoop_capped (rx : String → Bool)
    (encodeUTF8 : Name → Option String) (histOf : Name → List CNameData)
    (getTxTime : Nat → Option Int) (wStr : String → String)
    (wObj : Name → CNameData → Int → List (CNameData × Int) → String)
    (maxCount : Int) (hmc1 : maxCount ≠ -1) (hmc0 : maxCount ≤ 0) :
    ∀ (l : List (Name × CNameData)) (f : OutFile) (s : String) (ss : List String),
    matchedStrs rx encodeUTF8 l = s :: ss →
    exportLoop rx encodeUTF8 false maxCount histOf getTxTime wStr wObj l 0 f
      = Except.ok (1, f.write (wStr s)) := by
  intro l
  induction l with
  | nil =>
    intro f s ss hm
    simp [matchedStrs] at hm
  | cons e rest ih =>
    intro f s ss hm
    obtain ⟨name, data⟩ := e
    rw [exportLoop_cons]
    cases henc : encodeUTF8 name with
    | none =>
      simp only [matchedStrs, List.filterMap_cons, henc] at hm
      exact ih f s ss hm
    | some s0 =>
      by_cases hrx : rx s0 = true
      · have hs0 : s0 = s := by
          simp only [matchedStrs, List.filterMap_cons, henc, hrx, if_true] at hm
          exact (List.cons.inj hm).1
        subst hs0
        have hcap : maxCount ≠ -1 ∧ maxCount ≤ 0 + 1 := ⟨hmc1, by omega⟩
        simp only [hrx, not_true_eq_false, if_false]
        show (if maxCount ≠ -1 ∧ maxCount ≤ 0 + 1 then
            Except.ok ((0:Int) + 1, f.write (wStr s0))
          else exportLoop rx encodeUTF8 false maxCount histOf getTxTime wStr
            wObj rest (0 + 1) (f.write (wStr s0)))
          = Except.ok (1, f.write (wStr s0))
        rw [if_pos hcap]
        norm_num
      · have hrx' : rx s0 = false := by
          cases hx : rx s0
          · rfl
          · exact absurd hx hrx
        simp only [henc, hrx', not_false_eq_true, if_true]
        apply ih
        simp only [matchedStrs, List.filterMap_cons, henc, hrx', if_false] at hm
        exact hm

/-- Claim C10: an export whose `count` option is not `-1` yet `≤ 0` (e.g.
`count = 0`) still writes exactly one element when at least one name matches,
because the cap `count >= maxCount` is tested only after the matching record
has been written and the counter incremented; the destination is never an
empty array when a match exists. -/
theorem C10_count_cap_after_write (rx : String → Bool)
    (encodeUTF8 : Name → Option String) (histOf : Name → List CNameData)
    (getTxTime : Nat → Option Int) (wStr : String → String)
    (wObj : Name → CNameData → Int → List (CNameData × Int) → String)
    (regexpStr : String) (maxCount : Int) (index : List (Name × CNameData))
    (s : String) (ss : List String)
    (hmc1 : maxCount ≠ -1) (hmc0 : maxCount ≤ 0)
    (hm : matchedStrs rx encodeUTF8 index = s :: ss) :
    name_export rx encodeUTF8 false maxCount histOf getTxTime wStr wObj
        regexpStr true index
      = Except.ok (exportSummary 1 regexpStr,
          { isOpen := true, contents := "[\n" ++ wStr s ++ "\n]" }) := by
  have hf1 : ({ isOpen := true, contents := "" } : OutFile).write "[\n"
      = { isOpen := true, contents := "[\n" } := rfl
  have hloop := exportLoop_capped rx encodeUTF8 histOf getTxTime wStr wObj
    maxCount hmc1 hmc0 index { isOpen := true, contents := "[\n" } s ss hm
  simp only [name_export, hf1, hloop]
  simp [OutFile.write, String.append_assoc]

/-- Concrete instance of C10: `count = 0` with two matching names exports
exactly the first one. -/
theorem C10_count_cap_after_write_witness :
    name_export rxTrue encLen false 0 histEmpty txTimeNone wStrQuote wObjEmpty
        "re" true [([0], rec10), ([0, 0], rec10)]
      = Except.ok (exportSummary 1 "re",
          { isOpen := true, contents := "[\n" ++ wStrQuote "1" ++ "\n]" }) :=
  C10_count_cap_after_write rxTrue encLen histEmpty txTimeNone wStrQuote
    wObjEmpty "re" 0 [([0], rec10), ([0, 0], rec10)] "1" ["2"] (by decide)
    (by decide) (by decide)

/-- One destination state extends another: same open state, contents only
appended. -/
def fileExtends (f f' : OutFile) : Prop :=
  f'.isOpen = f.isOpen ∧ ∃ mid, f'.contents = f.contents ++ mid

/-- Extension is reflexive. -/
theorem fileExtends_refl (f : OutFile) : fileExtends f f :=
  ⟨rfl, "", (String.append_empty _).symm⟩

/-- A write extends the destination. -/
theorem fileExtends_write (f : OutFile) (s : String) :
    fileExtends f (f.write s) :=
  ⟨OutFile.write_isOpen f s, OutFile.write_extends f s⟩

/-- Extension is transitive. -/
theorem fileExtends_trans {f g h : OutFile} (h1 : fileExtends f g)
    (h2 : fileExtends g h) : fileExtends f h := by
  obtain ⟨ho1, m1, hc1⟩ := h1
  obtain ⟨ho2, m2, hc2⟩ := h2
  exact ⟨ho2.trans ho1, m1 ++ m2, by rw [hc2, hc1, String.append_assoc]⟩

/-- Either branch of a conditional write extends the destination. -/
theorem fileExtends_write_ite (f : OutFile) (c : Prop) [Decidable c]
    (s1 s2 : String) :
    fileExtends f (if c then f.write s1 else f.write s2) := by
  split
  · exact fileExtends_write f s1
  · exact fileExtends_write f s2

/-- Whatever the export loop does on success, it only appends to the
destination and never changes its open state. -/
theorem exportLoop_extends (rx : String → Bool)
    (encodeUTF8 : Name → Option String) (withHistory : Bool) (maxCount : Int)
    (histOf : Name → List CNameData) (getTxTime : Nat → Option Int)
    (wStr : String → String)
    (wObj : Name → CNameData → Int → List (CNameData × Int) → String) :
    ∀ (l : List (Name × CNameData)) (c : Int) (f : OutFile) (c' : Int)
      (f' : OutFile),
    exportLoop rx encodeUTF8 withHistory maxCount histOf getTxTime wStr wObj
        l c f = Except.ok (c', f') →
    fileExtends f f' := by
  intro l
  induction l with
  | nil =>
    intro c f c' f' h
    rw [exportLoop_nil] at h
    cases h
    exact fileExtends_refl f
  | cons e rest ih =>
    intro c f c' f' h
    obtain ⟨name, data⟩ := e
    rw [exportLoop_cons] at h
    cases henc : encodeUTF8 name with
    | none =>
      rw [henc] at h
      exact ih c f c' f' h
    | some s =>
      rw [henc] at h
      by_cases hrx : rx s = true
      · simp only [hrx, not_true_eq_false, if_false] at h
        cases withHistory with
        | false =>
          replace h :
              (if maxCount ≠ -1 ∧ maxCount ≤ c + 1 then
                Except.ok (c + 1,
                  if c = 0 then f.write (wStr s)
                  else f.write (",\n" ++ wStr s))
              else
                exportLoop rx encodeUTF8 false maxCount histOf getTxTime wStr
                  wObj rest (c + 1)
                  (if c = 0 then f.write (wStr s)
                    else f.write (",\n" ++ wStr s)))
              = Except.ok (c', f') := h
          by_cases hcap : maxCount ≠ -1 ∧ maxCount ≤ c + 1
          · rw [if_pos hcap] at h
            cases h
            exact fileExtends_write_ite f (c = 0) _ _
          · rw [if_neg hcap] at h
            exact fileExtends_trans (fileExtends_write_ite f (c = 0) _ _)
              (ih _ _ _ _ h)
        | true =>
          cases hpush : pushTimestampOfDataTx getTxTime data with
          | error err =>
            rw [hpush] at h
            simp at h
          | ok t =>
            rw [hpush] at h
            cases hth : timesOfHistory getTxTime (histOf name) with
            | error err =>
              rw [hth] at h
              simp at h
            | ok histTimes =>
              rw [hth] at h
              replace h :
                  (if maxCount ≠ -1 ∧ maxCount ≤ c + 1 then
                    Except.ok (c + 1,
                      if c = 0 then f.write (wObj name data t histTimes)
                      else f.write ("," ++ wObj name data t histTimes))
                  else
                    exportLoop rx encodeUTF8 true maxCount histOf getTxTime
                      wStr wObj rest (c + 1)
                      (if c = 0 then f.write (wObj name data t histTimes)
                        else f.write ("," ++ wObj name data t histTimes)))
                  = Except.ok (c', f') := h
              by_cases hcap : maxCount ≠ -1 ∧ maxCount ≤ c + 1
              · rw [if_pos hcap] at h
                cases h
                exact fileExtends_write_ite f (c = 0) _ _
              · rw [if_neg hcap] at h
                exact fileExtends_trans (fileExtends_write_ite f (c = 0) _ _)
                  (ih _ _ _ _ h)
      · have hrx' : rx s = false := by
          cases hx : rx s
          · rfl
          · exact absurd hx hrx
        simp only [hrx', not_false_eq_true, if_true] at h
        exact ih c f c' f' h

/-- On a destination that failed to open, the no-history export loop always
succeeds and leaves the destination untouched: every write is silently
swallowed. -/
theorem exportLoop_closed_nohist (rx : String → Bool)
    (encodeUTF8 : Name → Option String) (maxCount : Int)
    (histOf : Name → List CNameData) (getTxTime : Nat → Option Int)
    (wStr : String → String)
    (wObj : Name → CNameData → Int → List (CNameData × Int) → String)
    (f : OutFile) (hclosed : f.isOpen = false) :
    ∀ (l : List (Name × CNameData)) (c : Int),
    ∃ c', exportLoop rx encodeUTF8 false maxCount histOf getTxTime wStr wObj
        l c f = Except.ok (c', f) := by
  intro l
  induction l with
  | nil =>
    intro c
    exact ⟨c, exportLoop_nil rx encodeUTF8 false maxCount histOf getTxTime
      wStr wObj c f⟩
  | cons e rest ih =>
    intro c
    obtain ⟨name, data⟩ := e
    rw [exportLoop_cons]
    cases henc : encodeUTF8 name with
    | none => exact ih c
    | some s =>
      by_cases hrx : rx s = true
      · have hw1 : f.write (wStr s) = f := OutFile.write_closed f _ hclosed
        have hw2 : f.write (",\n" ++ wStr s) = f :=
          OutFile.write_closed f _ hclosed
        simp only [hrx, not_true_eq_false, if_false, hw1, hw2, ite_self]
        show ∃ c', (if maxCount ≠ -1 ∧ maxCount ≤ c + 1 then
            Except.ok (c + 1, f)
          else exportLoop rx encodeUTF8 false maxCount histOf getTxTime wStr
            wObj rest (c + 1) f) = Except.ok (c', f)
        by_cases hcap : maxCount ≠ -1 ∧ maxCount ≤ c + 1
        · rw [if_pos hcap]
          exact ⟨c + 1, rfl⟩
        · rw [if_neg hcap]
          exact ih (c + 1)
      · have hrx' : rx s = false := by
          cases hx : rx s
          · rfl
          · exact absurd hx hrx
        simp only [hrx', not_false_eq_true, if_true]
        exact ih c

/-- Claim C4, amended: on normal completion over a writable destination the
file is a closed JSON array (opening "[", body, closing "]" all present);
but an I/O failure is NOT surfaced: when the destination cannot be opened, a
no-history export still completes successfully, reporting its summary while
the destination stays empty — the `ofstream` is used with exceptions
disabled and its state is never checked. -/
theorem C4_amended :
    (∀ (rx : String → Bool) (encodeUTF8 : Name → Option String)
        (withHistory : Bool) (maxCount : Int) (histOf : Name → List CNameData)
        (getTxTime : Nat → Option Int) (wStr : String → String)
        (wObj : Name → CNameData → Int → List (CNameData × Int) → String)
        (regexpStr : String) (index : List (Name × CNameData)) (s : String)
        (f : OutFile),
      name_export rx encodeUTF8 withHistory maxCount histOf getTxTime wStr wObj
          regexpStr true index = Except.ok (s, f) →
      f.isOpen = true ∧ ∃ body, f.contents = "[\n" ++ body ++ "\n]")
    ∧ (∀ (rx : String → Bool) (encodeUTF8 : Name → Option String)
        (maxCount : Int) (histOf : Name → List CNameData)
        (getTxTime : Nat → Option Int) (wStr : String → String)
        (wObj : Name → CNameData → Int → List (CNameData × Int) → String)
        (regexpStr : String) (index : List (Name × CNameData)),
      ∃ s, name_export rx encodeUTF8 false maxCount histOf getTxTime wStr wObj
          regexpStr false index
        = Except.ok (s, { isOpen := false, contents := "" })) := by
  constructor
  · intro rx encodeUTF8 withHistory maxCount histOf getTxTime wStr wObj
      regexpStr index s f h
    replace h :
        (match exportLoop rx encodeUTF8 withHistory maxCount histOf getTxTime
            wStr wObj index 0 { isOpen := true, contents := "[\n" } with
          | Except.error err => Except.error err
          | Except.ok (count, f2) =>
            Except.ok (exportSummary count regexpStr, f2.write "\n]"))
          = Except.ok (s, f) := h
    cases hloop : exportLoop rx encodeUTF8 withHistory maxCount histOf
        getTxTime wStr wObj index 0 { isOpen := true, contents := "[\n" } with
    | error err =>
      rw [hloop] at h
      simp at h
    | ok pr =>
      obtain ⟨count, f2⟩ := pr
      rw [hloop] at h
      have hext := exportLoop_extends rx encodeUTF8 withHistory maxCount histOf
        getTxTime wStr wObj index 0 { isOpen := true, contents := "[\n" }
        count f2 hloop
      obtain ⟨hopen, mid, hcont⟩ := hext
      cases h
      constructor
      · rw [OutFile.write_isOpen]
        exact hopen
      · refine ⟨mid, ?_⟩
        rw [OutFile.write, if_pos hopen]
        simp only [hcont]
  · intro rx encodeUTF8 maxCount histOf getTxTime wStr wObj regexpStr index
    obtain ⟨c', hloop⟩ := exportLoop_closed_nohist rx encodeUTF8 maxCount
      histOf getTxTime wStr wObj { isOpen := false, contents := "" } rfl
      index 0
    refine ⟨exportSummary c' regexpStr, ?_⟩
    show (match exportLoop rx encodeUTF8 false maxCount histOf getTxTime
        wStr wObj index 0 { isOpen := false, contents := "" } with
      | Except.error err => Except.error err
      | Except.ok (count, f2) =>
        Except.ok (exportSummary count regexpStr, f2.write "\n]"))
      = Except.ok (exportSummary c' regexpStr,
          { isOpen := false, contents := "" })
    rw [hloop]
    rfl

/-- Claim C4, counterexample: exporting one matching name to an unwritable
destination returns the success summary "Found 1 names ..." with an
empty file, and no error is reported. -/
theorem C4_counterexample :
    name_export rxTrue encLen false (-1) histEmpty txTimeNone wStrQuote
        wObjEmpty "re" false [([0], rec10)]
      = Except.ok (exportSummary 1 "re", { isOpen := false, contents := "" })
    ∧ (name_export rxTrue encLen false (-1) histEmpty txTimeNone wStrQuote
        wObjEmpty "re" false [([0], rec10)]).isOk = true := by
  have hok : name_export rxTrue encLen false (-1) histEmpty txTimeNone
      wStrQuote wObjEmpty "re" false [([0], rec10)]
      = Except.ok (exportSummary 1 "re",
          { isOpen := false, contents := "" }) := rfl
  exact ⟨hok, by rw [hok]; rfl⟩

/-- The destination contents after exporting the single name of length 1,
for closed evaluations. -/
def outFile1 : OutFile :=
  { isOpen := true, contents := "[\n" ++ wStrQuote "1" ++ "\n]" }

/-- Concrete instance of C4, amended: the one-name export to a writable
destination yields a closed array; the same export to an unwritable
destination still reports success with an empty file. -/
theorem C4_amended_witness :
    (outFile1.isOpen = true
      ∧ ∃ body, outFile1.contents = "[\n" ++ body ++ "\n]")
    ∧ ∃ s, name_export rxTrue encLen false (-1) histEmpty txTimeNone wStrQuote
        wObjEmpty "re" false [([0], rec10)]
      = Except.ok (s, { isOpen := false, contents := "" }) := by
  have hm : matchedStrs rxTrue encLen [([0], rec10)] = ["1"] := by decide
  have hl := exportLoop_nohist rxTrue encLen histEmpty txTimeNone wStrQuote
    wObjEmpty [([0], rec10)] 0 { isOpen := true, contents := "[\n" }
  rw [hm] at hl
  have hok : name_export rxTrue encLen false (-1) histEmpty txTimeNone
      wStrQuote wObjEmpty "re" true [([0], rec10)]
      = Except.ok (exportSummary 1 "re", outFile1) := by
    have hf1 : ({ isOpen := true, contents := "" } : OutFile).write "[\n"
        = { isOpen := true, contents := "[\n" } := rfl
    simp only [name_export, hf1, hl]
    simp [writeElems, OutFile.write, outFile1, exportSummary,
      String.append_assoc]
  exact ⟨C4_amended.1 rxTrue encLen false (-1) histEmpty txTimeNone wStrQuote
      wObjEmpty "re" [([0], rec10)] (exportSummary 1 "re") outFile1 hok,
    C4_amended.2 rxTrue encLen (-1) histEmpty txTimeNone wStrQuote wObjEmpty
      "re" [([0], rec10)]⟩

/-- When the history timestamps all resolved, every history entry had a
resolvable transaction. -/
theorem timesOfHistory_ok_resolves (getTxTime : Nat → Option Int) :
    ∀ (l : List CNameData) (ts : List (CNameData × Int)),
    timesOfHistory getTxTime l = Except.ok ts →
    ∀ e ∈ l, getTxTime e.updOutpointHash ≠ none := by
  intro l
  induction l with
  | nil =>
    intro ts _ e he
    simp at he
  | cons hd rest ih =>
    intro ts hok e he
    rw [timesOfHistory] at hok
    cases hpush : pushTimestampOfDataTx getTxTime hd with
    | error err =>
      rw [hpush] at hok
      exact Except.noConfusion hok
    | ok t =>
      rw [hpush] at hok
      cases hth : timesOfHistory getTxTime rest with
      | error err =>
        rw [hth] at hok
        exact Except.noConfusion hok
      | ok ts' =>
        rcases List.mem_cons.mp he with heq | hmem
        · subst heq
          intro hnone
          rw [pushTimestampOfDataTx, hnone] at hpush
          exact Except.noConfusion hpush
        · exact ih ts' hth e hmem

/-- If any entry of the remaining index matches the regex but has an
unresolvable transaction (its own or one of its history entries), the
history export loop aborts with an error: the `JSONRPCError` thrown by
`pushTimestampOfDataTx` is not caught by the per-entry
`catch (InvalidNameString)`. -/
theorem exportLoop_hist_fails (rx : String → Bool)
    (encodeUTF8 : Name → Option String) (histOf : Name → List CNameData)
    (getTxTime : Nat → Option Int) (wStr : String → String)
    (wObj : Name → CNameData → Int → List (CNameData × Int) → String) :
    ∀ (l : List (Name × CNameData)) (c : Int) (f : OutFile),
    (∃ p ∈ l, (∃ s, encodeUTF8 p.1 = some s ∧ rx s = true)
      ∧ (getTxTime p.2.updOutpointHash = none
        ∨ ∃ e ∈ histOf p.1, getTxTime e.updOutpointHash = none)) →
    ∃ err, exportLoop rx encodeUTF8 true (-1) histOf getTxTime wStr wObj l c f
      = Except.error err := by
  intro l
  induction l with
  | nil =>
    intro c f hex
    obtain ⟨p, hp, _⟩ := hex
    simp at hp
  | cons hd rest ih =>
    intro c f hex
    obtain ⟨name, data⟩ := hd
    obtain ⟨p, hp, hmatch, hfail⟩ := hex
    rw [exportLoop_cons]
    cases henc : encodeUTF8 name with
    | none =>
      apply ih
      rcases List.mem_cons.mp hp with heq | hmem
      · exfalso
        obtain ⟨s, hs, _⟩ := hmatch
        rw [heq] at hs
        rw [henc] at hs
        exact Option.noConfusion hs
      · exact ⟨p, hmem, hmatch, hfail⟩
    | some s0 =>
      by_cases hrx : rx s0 = true
      · cases hpush : pushTimestampOfDataTx getTxTime data with
        | error err =>
          refine ⟨err, ?_⟩
          simp only [hrx, not_true_eq_false, if_false, hpush]
          rfl
        | ok t =>
          cases hth : timesOfHistory getTxTime (histOf name) with
          | error err =>
            refine ⟨err, ?_⟩
            simp only [hrx, not_true_eq_false, if_false, hpush, hth]
            rfl
          | ok ts =>
            have hrest : p ∈ rest := by
              rcases List.mem_cons.mp hp with heq | hmem
              · exfalso
                subst heq
                rcases hfail with h1 | ⟨e, he, h2⟩
                · rw [pushTimestampOfDataTx, h1] at hpush
                  exact Except.noConfusion hpush
                · exact timesOfHistory_ok_resolves getTxTime _ ts hth e he h2
              · exact hmem
            obtain ⟨err, herr⟩ := ih (c + 1)
              (if c = 0 then f.write (wObj name data t ts)
                else f.write ("," ++ wObj name data t ts))
              ⟨p, hrest, hmatch, hfail⟩
            refine ⟨err, ?_⟩
            simp only [hrx, not_true_eq_false, if_false, hpush, hth]
            show (if (-1 : Int) ≠ -1 ∧ (-1 : Int) ≤ c + 1 then
                Except.ok (c + 1,
                  if c = 0 then f.write (wObj name data t ts)
                  else f.write ("," ++ wObj name data t ts))
              else exportLoop rx encodeUTF8 true (-1) histOf getTxTime wStr
                wObj rest (c + 1)
                (if c = 0 then f.write (wObj name data t ts)
                  else f.write ("," ++ wObj name data t ts)))
              = Except.error err
            rw [if_neg (by simp)]
            exact herr
      · have hrx' : rx s0 = false := by
          cases hx : rx s0
          · rfl
          · exact absurd hx hrx
        simp only [hrx', not_false_eq_true, if_true]
        apply ih
        rcases List.mem_cons.mp hp with heq | hmem
        · exfalso
          obtain ⟨s, hs, hrs⟩ := hmatch
          rw [heq] at hs
          rw [henc] at hs
          have : s0 = s := Option.some.inj hs
          rw [← this] at hrs
          rw [hrx'] at hrs
          exact Bool.noConfusion hrs
        · exact ⟨p, hmem, hmatch, hfail⟩

/-- Claim C5: during an export with history, if the originating transaction
of any matched record (or of any of its history entries) cannot be resolved
to a timestamp, the whole `name_export` call fails with an error — the
record is not skipped and no success summary is produced.  (`count` at its
default `-1`; a non-default cap could stop the loop before reaching the
failing record.) -/
theorem C5_history_resolution_failure (rx : String → Bool)
    (encodeUTF8 : Name → Option String) (histOf : Name → List CNameData)
    (getTxTime : Nat → Option Int) (wStr : String → String)
    (wObj : Name → CNameData → Int → List (CNameData × Int) → String)
    (regexpStr : String) (canWrite : Bool) (index : List (Name × CNameData))
    (hbad : ∃ p ∈ index, (∃ s, encodeUTF8 p.1 = some s ∧ rx s = true)
      ∧ (getTxTime p.2.updOutpointHash = none
        ∨ ∃ e ∈ histOf p.1, getTxTime e.updOutpointHash = none)) :
    ∃ err, name_export rx encodeUTF8 true (-1) histOf getTxTime wStr wObj
        regexpStr canWrite index = Except.error err := by
  obtain ⟨err, herr⟩ := exportLoop_hist_fails rx encodeUTF8 histOf getTxTime
    wStr wObj index 0
    (({ isOpen := canWrite, contents := "" } : OutFile).write "[\n") hbad
  refine ⟨err, ?_⟩
  show (match exportLoop rx encodeUTF8 true (-1) histOf getTxTime wStr wObj
      index 0 (({ isOpen := canWrite, contents := "" } : OutFile).write "[\n")
      with
    | Except.error e => Except.error e
    | Except.ok (count, f2) =>
      Except.ok (exportSummary count regexpStr, f2.write "\n]"))
    = Except.error err
  rw [herr]

/-- Concrete instance of C5: one matching name whose transaction lookup
fails makes the whole history export error out. -/
theorem C5_history_resolution_failure_witness :
    ∃ err, name_export rxTrue encLen true (-1) histEmpty txTimeNone wStrQuote
        wObjEmpty "re" true [([0], rec10)] = Except.error err :=
  C5_history_resolution_failure rxTrue encLen histEmpty txTimeNone wStrQuote
    wObjEmpty "re" true [([0], rec10)]
    ⟨([0], rec10), by decide, ⟨"1", rfl, rfl⟩, Or.inl rfl⟩
